import Mathlib

/-!
Verification development for the claude-bot orchestrator (Go, single binary).

The definitions below are a shallow embedding of the Go source in `main.go`
(the revision with triage/retry support).  Pure Go functions become Lean
functions on `String` / `List Char`; the effectful pipeline (`processIssue`,
`poll`, `recoverStaleIssues`) is embedded as a function from an explicit
environment — one field per fallible external call site (gh / git / claude
invocations) — to a trace of attempted external actions plus the returned
error.  Go strings are byte slices; every character-level function below is
only ever applied where the relevant bytes are ASCII, so the `List Char`
model coincides with Go's byte-level semantics (noted at each definition).
-/

/-! ### Character helpers (ASCII code points, as the Go code compares them) -/

/-- Go `strings.ToLower`, restricted to the ASCII range the theorems exercise:
`'A'..'Z'` (codes 65..90) map to `'a'..'z'` by adding 32, everything else is
unchanged.  (Go also lowercases non-ASCII letters; those are collapsed to a
dash by `slugify`'s regexp either way, so the difference is invisible to the
functions modelled here.) -/
def goToLower (c : Char) : Char :=
  if 65 ≤ c.toNat ∧ c.toNat ≤ 90 then Char.ofNat (c.toNat + 32) else c

/-- The character class `[a-z0-9]` of the regexp `nonAlphanumeric` in
`main.go` (`'a'` = 97, `'z'` = 122, `'0'` = 48, `'9'` = 57). -/
def isAlnum (c : Char) : Bool :=
  (97 ≤ c.toNat && c.toNat ≤ 122) || (48 ≤ c.toNat && c.toNat ≤ 57)

/-- `nonAlphanumeric.ReplaceAllString(s, "-")`: every maximal run of
characters outside `[a-z0-9]` is replaced by a single `'-'`.  The flag
records whether we are inside such a run (its dash is already emitted). -/
def collapseAux : Bool → List Char → List Char
  | _, [] => []
  | inDash, c :: cs =>
    if isAlnum c then c :: collapseAux false cs
    else if inDash then collapseAux inDash cs
    else '-' :: collapseAux true cs

/-- `strings.Trim(s, "-")`: remove leading and trailing dashes. -/
def trimDashes (l : List Char) : List Char :=
  ((l.dropWhile (· == '-')).reverse.dropWhile (· == '-')).reverse

/-- `slugify` from `main.go` on the rune level: lowercase, collapse
non-alphanumeric runs to single dashes, trim dashes, and truncate to 50
(`s[:50]` — bytes in Go, but at that point every character is ASCII
`[a-z0-9-]`, so bytes = runes). -/
def slugifyL (l : List Char) : List Char :=
  let s := l.map goToLower
  let s := collapseAux false s
  let s := trimDashes s
  if s.length > 50 then s.take 50 else s

/-- `func slugify(s string) string`. -/
def slugify (s : String) : String :=
  String.mk (slugifyL s.data)

/-- Go `strings.Contains(s, sub)` on the character level.  (All substring
probes in the source use ASCII-only patterns, for which byte-level and
rune-level containment agree.) -/
def containsSub : List Char → List Char → Bool
  | s, sub =>
    if sub.isPrefixOf s then true
    else
      match s with
      | [] => false
      | _ :: t => containsSub t sub

/-- `strings.Contains` on `String`. -/
def containsStr (s sub : String) : Bool :=
  containsSub s.data sub.data

/-! ### Data model (`Issue`, `Label`, `Comment`, `Config`) -/

/-- `type Label struct { Name string }`. -/
structure Label where
  name : String
deriving DecidableEq

/-- `type Comment struct { Author …; Body string; CreatedAt string }`. -/
structure Comment where
  author : String
  body : String
  createdAt : String
deriving DecidableEq

/-- `type Issue struct { … }` (the fields the modelled functions read). -/
structure Issue where
  number : Nat
  title : String
  body : String
  repo : String
  labels : List Label
  url : String
  comments : List Comment
  author : String
deriving DecidableEq

/-- `func (i Issue) hasLabel(name string) bool`. -/
def Issue.hasLabel (i : Issue) (name : String) : Bool :=
  i.labels.any (fun l => l.name == name)

/-- `func (i Issue) key() string` = `fmt.Sprintf("%s#%d", i.Repo, i.Number)`. -/
def Issue.key (i : Issue) : String :=
  i.repo ++ "#" ++ toString i.number

/-- `type Config struct { … }` (the fields the modelled functions read;
durations and directory paths are environmental and not needed by any
claim). -/
structure Config where
  Repos : List String
  Workers : Nat
  IssueLabel : String
  WIPLabel : String
  DoneLabel : String
  NeedsInfoLabel : String
  FailedLabel : String
  TriageLabel : String
  MaxTurns : Nat
  MaxRetries : Nat

/-- The `loadConfig` defaults (`.env`/env overrides aside). -/
def defaultConfig : Config where
  Repos := ["acme/svc"]
  Workers := 3
  IssueLabel := "todo"
  WIPLabel := "in-progress"
  DoneLabel := "done"
  NeedsInfoLabel := "needs-info"
  FailedLabel := "failed"
  TriageLabel := "triaged"
  MaxTurns := 50
  MaxRetries := 3

/-- `func branchName(issue Issue) string`. -/
def branchName (issue : Issue) : String :=
  let slug := slugify issue.title
  let slug := if slug = "" then "fix" else slug
  "issue-" ++ toString issue.number ++ "-" ++ slug

/-! ### Bot comments and sentinels -/

/-- The error sentinel `countBotErrors` greps for. -/
def errSentinel : String := "claude-bot encountered an error:"

/-- The error-comment body posted by `processIssue`'s deferred compensation:
`fmt.Sprintf("claude-bot encountered an error:\n‹fence›\n%s\n‹fence›\nNeeds manual attention.", retErr.Error())`. -/
def errBody (msg : String) : String :=
  "claude-bot encountered an error:\n```\n" ++ msg ++ "\n```\nNeeds manual attention."

/-- The no-change comment body posted at step 6 of `processIssue`. -/
def noChangeBody (cfg : Config) : String :=
  "claude-bot ran but couldn't resolve this issue — no file changes were made.\n\nPlease add more context or details as a comment, then replace the `" ++ cfg.NeedsInfoLabel ++ "` label with `" ++ cfg.IssueLabel ++ "` to retry."

/-- The PR-link comment body posted by `ensurePRComment`:
`fmt.Sprintf("PR ready for review: %s", prURL)`. -/
def prLinkBody (prURL : String) : String :=
  "PR ready for review: " ++ prURL

/-- The triage fallback reply (used when the claude CLI fails):
`fmt.Sprintf("Hey @%s, thanks for raising this! A maintainer will take a look soon.", issue.Author.Login)`. -/
def triageFallback (author : String) : String :=
  "Hey @" ++ author ++ ", thanks for raising this! A maintainer will take a look soon."

/-- `func countBotErrors(issue Issue) int`: counts comments whose body
contains the error sentinel. -/
def countBotErrors (issue : Issue) : Nat :=
  issue.comments.countP (fun c => containsStr c.body errSentinel)

/-- `func hasBotComment(issue Issue) bool`: true when any comment body
contains the substring `"claude-bot"`. -/
def hasBotComment (issue : Issue) : Bool :=
  issue.comments.any (fun c => containsStr c.body "claude-bot")

/-! ### Tracker (in-memory dedup)

`type tracker struct { mu sync.Mutex; inflight map[string]bool }`.
A Go map lookup of an absent key yields `false` and `delete` removes the
key, so the map is exactly a function `String → Bool`; the mutex serialises
the operations, which the sequential model reflects. -/

def Tracker : Type := String → Bool

def emptyTracker : Tracker := fun _ => false

/-- `func (t *tracker) tryAcquire(key string) bool`: returns the boolean
result and the updated inflight set. -/
def tryAcquire (key : String) (t : Tracker) : Bool × Tracker :=
  if t key then (false, t)
  else (true, fun x => if x = key then true else t x)

/-- `func (t *tracker) release(key string)`. -/
def release (key : String) (t : Tracker) : Tracker :=
  fun x => if x = key then false else t x

/-- A serialised history of tracker calls (possibly on other keys). -/
inductive TrackerOp where
  | acq (key : String)
  | rel (key : String)
deriving DecidableEq

/-- Run a history of tracker calls against a state. -/
def applyOps (ops : List TrackerOp) (t : Tracker) : Tracker :=
  ops.foldl (fun t op =>
    match op with
    | .acq k => (tryAcquire k t).2
    | .rel k => release k t) t

/-! ### Poller (per-issue body of `poll`)

The inner loop of `func poll`: for each fetched issue, skip when a WIP/done/
failed label is present; else mark failed when the bot-error count reached
`MaxRetries`; else try to acquire the tracker key and enqueue.  (The
`ctx.Done` branch at the queue send aborts the whole poll and is out of
scope for the per-issue claims.) -/

inductive PollAct where
  | addLabel (name : String)
  | removeLabel (name : String)
  | enqueued
deriving DecidableEq

def pollStep (cfg : Config) (tr : Tracker) (issue : Issue) : List PollAct × Tracker :=
  if issue.hasLabel cfg.WIPLabel || issue.hasLabel cfg.DoneLabel || issue.hasLabel cfg.FailedLabel then
    ([], tr)
  else if cfg.MaxRetries ≤ countBotErrors issue then
    ([PollAct.addLabel cfg.FailedLabel, PollAct.removeLabel cfg.IssueLabel], tr)
  else
    match tryAcquire issue.key tr with
    | (true, tr') => ([PollAct.enqueued], tr')
    | (false, _) => ([], tr)

/-! ### Pipeline (`processIssue`)

Each fallible external call site of `processIssue` is abstracted by one
field of `Env` giving that call's outcome (`none` = success for calls that
only fail, `Except` where a value is produced).  The function returns the
trace of attempted externally-visible actions — label edits, comments, and
the git/gh/claude steps — together with `retErr`.  Read-only probes
(`git status`, `gh pr list`, `gh issue view`) do not appear in the trace;
their observations are the corresponding `Env` fields. -/

structure Env where
  /-- outcome of `addLabel(ctx, issue, cfg.WIPLabel)` at step 1 -/
  addWIPErr : Option String
  /-- outcome of `ensureRepoCloned` (step 2) -/
  cloneErr : Option String
  /-- outcome of `git fetch origin` (step 3) -/
  fetchErr : Option String
  /-- outcome of `ensureWorktree` (step 4) -/
  worktreeErr : Option String
  /-- first `checkChanges` probe (step 5): error or the porcelain answer -/
  changes1 : Except String Bool
  /-- outcome of `runClaude` -/
  claudeErr : Option String
  /-- second `checkChanges` probe, after the agent ran -/
  changes2 : Except String Bool
  /-- outcome of `commitChanges` (step 7) -/
  commitErr : Option String
  /-- outcome of `git push -u origin <branch>` (step 8) -/
  pushErr : Option String
  /-- outcome of `ensurePR` (step 9): error or the PR URL -/
  prResult : Except String String
  /-- `ensurePRComment`'s probe: a comment containing the PR URL exists -/
  prCommentAlready : Bool
  /-- the comment list `lastCommentContains` fetches via `gh issue view`
  (`none`: the fetch or the JSON decode failed) -/
  viewComments : Option (List Comment)

/-- Externally-visible calls attempted by the pipeline.  `cleanupStep`
stands for the `cleanupWorktree` invocation (which internally no-ops when
the worktree directory is absent). -/
inductive Act where
  | addLabel (name : String)
  | removeLabel (name : String)
  | comment (body : String)
  | cloneRepo
  | fetchOrigin
  | addWorktree
  | runAgent
  | commitStep
  | pushStep
  | createPR
  | cleanupStep
deriving DecidableEq

/-- `func lastCommentContains(ctx, issue, text) bool`: fetch the comments
via `gh issue view`; any error or an empty list yields `false`, otherwise
test whether the most recent comment contains `text`. -/
def lastCommentContains (fetched : Option (List Comment)) (text : String) : Bool :=
  match fetched with
  | none => false
  | some comments =>
    match comments.getLast? with
    | none => false
    | some last => containsStr last.body text

/-- The deferred compensation of `processIssue` (runs whenever
`retErr != nil`): post the error comment unless the most recent comment
already contains the error text, then reset the labels and clean up. -/
def compensate (cfg : Config) (env : Env) (msg : String) : List Act :=
  (if lastCommentContains env.viewComments msg then []
   else [Act.comment (errBody msg)])
  ++ [Act.removeLabel cfg.WIPLabel, Act.addLabel cfg.IssueLabel, Act.cleanupStep]

/-- Step 1 of `processIssue`: mark in-progress (skipped when the label is
already present); the follow-up `removeLabel` call's failure is logged and
non-fatal, so only the `addLabel` outcome decides the step. -/
def claimStep (cfg : Config) (issue : Issue) (env : Env) : List Act × Option String :=
  if issue.hasLabel cfg.WIPLabel then ([], none)
  else
    match env.addWIPErr with
    | some e => ([Act.addLabel cfg.WIPLabel], some ("marking in-progress: " ++ e))
    | none => ([Act.addLabel cfg.WIPLabel, Act.removeLabel cfg.IssueLabel], none)

/-- Step 5 of `processIssue`: probe for changes, run the agent only when the
worktree is clean, and re-probe.  The result is the attempted actions (the
probes themselves are read-only) and either an error or the final
`hasChanges` answer. -/
def synthGate (env : Env) : List Act × Except String Bool :=
  match env.changes1 with
  | .error e => ([], .error ("checking changes: " ++ e))
  | .ok true => ([], .ok true)
  | .ok false =>
    match env.claudeErr with
    | some e => ([Act.runAgent], .error ("running claude: " ++ e))
    | none =>
      match env.changes2 with
      | .error e => ([Act.runAgent], .error ("checking changes after claude: " ++ e))
      | .ok hc => ([Act.runAgent], .ok hc)

/-- Steps 7–12 of `processIssue` (reached only with changes present):
commit, push, create the review request, post the PR-link comment unless one
is already there, mark done unless already marked, clean up. -/
def finishSteps (cfg : Config) (issue : Issue) (env : Env) : List Act × Option String :=
  match env.commitErr with
  | some e => ([Act.commitStep], some ("committing: " ++ e))
  | none =>
    match env.pushErr with
    | some e => ([Act.commitStep, Act.pushStep], some ("pushing: " ++ e))
    | none =>
      match env.prResult with
      | .error e => ([Act.commitStep, Act.pushStep, Act.createPR], some ("creating PR: " ++ e))
      | .ok prURL =>
        ([Act.commitStep, Act.pushStep, Act.createPR]
          ++ (if env.prCommentAlready then [] else [Act.comment (prLinkBody prURL)])
          ++ (if issue.hasLabel cfg.DoneLabel then []
              else [Act.addLabel cfg.DoneLabel, Act.removeLabel cfg.WIPLabel])
          ++ [Act.cleanupStep], none)

/-- The body of `processIssue` before the deferred handler: steps 1–12 in
source order, accumulating the attempted actions and stopping at the first
step that returns an error. -/
def processMain (cfg : Config) (issue : Issue) (env : Env) : List Act × Option String :=
  match claimStep cfg issue env with
  | (t1, some e) => (t1, some e)
  | (t1, none) =>
    -- Step 2: ensure repo cloned
    match env.cloneErr with
    | some e => (t1 ++ [Act.cloneRepo], some ("cloning repo: " ++ e))
    | none =>
    -- Step 3: fetch latest
    match env.fetchErr with
    | some e => (t1 ++ [Act.cloneRepo, Act.fetchOrigin], some ("fetching latest: " ++ e))
    | none =>
    -- Step 4: create worktree
    match env.worktreeErr with
    | some e => (t1 ++ [Act.cloneRepo, Act.fetchOrigin, Act.addWorktree], some ("creating worktree: " ++ e))
    | none =>
      let t4 := t1 ++ [Act.cloneRepo, Act.fetchOrigin, Act.addWorktree]
      -- Step 5: synth gate
      match synthGate env with
      | (ts, .error e) => (t4 ++ ts, some e)
      | (ts, .ok false) =>
        -- Step 6: no changes → needs-info branch, success
        (t4 ++ ts ++ [Act.comment (noChangeBody cfg),
                      Act.removeLabel cfg.WIPLabel,
                      Act.addLabel cfg.NeedsInfoLabel,
                      Act.cleanupStep], none)
      | (ts, .ok true) =>
        -- Steps 7–12
        match finishSteps cfg issue env with
        | (tf, r) => (t4 ++ ts ++ tf, r)

/-- `func processIssue(...) (retErr error)`: the body plus the deferred
compensation, which fires exactly when `retErr != nil`. -/
def processIssue (cfg : Config) (issue : Issue) (env : Env) : List Act × Option String :=
  match processMain cfg issue env with
  | (t, some msg) => (t ++ compensate cfg env msg, some msg)
  | (t, none) => (t, none)

/-! ### Startup reconciler (`recoverStaleIssues`) -/

/-- Environment of the reconciler: per-repo result of
`fetchIssues(ctx, repo, cfg.WIPLabel)` (`none` = fetch error, which is
logged and skips the repo), and per-branch result of parsing
`gh pr list --head <branch> --json url` (`none` = JSON decode failure). -/
structure RecEnv where
  issuesFor : String → Option (List Issue)
  prListFor : String → Option (List String)

/-- The PR probe in `recoverStaleIssues`: a review request exists when the
JSON parsed and the list is non-empty (`json.Unmarshal(...) == nil && len(prs) > 0`). -/
def prExists (env : RecEnv) (branch : String) : Bool :=
  match env.prListFor branch with
  | some (_ :: _) => true
  | _ => false

inductive LabelAct where
  | add (name : String)
  | remove (name : String)
deriving DecidableEq

/-- Per-issue body of the reconciler loop: PR exists → done, else reset to
the ready label. -/
def recoverIssue (cfg : Config) (env : RecEnv) (issue : Issue) : List LabelAct :=
  if prExists env (branchName issue) then
    [LabelAct.add cfg.DoneLabel, LabelAct.remove cfg.WIPLabel]
  else
    [LabelAct.remove cfg.WIPLabel, LabelAct.add cfg.IssueLabel]

/-- One repo iteration of `recoverStaleIssues`: a fetch error is logged and
skips the repo, otherwise every fetched issue is handled by `recoverIssue`. -/
def recoverRepo (cfg : Config) (env : RecEnv) (repo : String) : List (String × Nat × List LabelAct) :=
  match env.issuesFor repo with
  | none => []
  | some issues => issues.map (fun i => (repo, i.number, recoverIssue cfg env i))

/-- `func recoverStaleIssues(ctx, cfg)`: for each configured repo, list the
open issues carrying the WIP label and emit the per-issue label edits. -/
def recoverStaleIssues (cfg : Config) (env : RecEnv) : List (String × Nat × List LabelAct) :=
  (cfg.Repos.map (recoverRepo cfg env)).flatten

/-! ### `.env` loader (`loadDotEnv`) -/

/-- The environment as Go's `os.Getenv` sees it: absent variables read as `""`. -/
def EnvMap : Type := String → String

def emptyEnvMap : EnvMap := fun _ => ""

/-- `strings.Split(s, "\n")` (keeps empty segments). -/
def splitNL : List Char → List (List Char)
  | [] => [[]]
  | c :: t =>
    if c = '\n' then [] :: splitNL t
    else
      match splitNL t with
      | [] => [[c]]
      | s :: rest => (c :: s) :: rest

/-- `strings.TrimSpace` (the source only ever feeds it ASCII whitespace). -/
def trimSpace (l : List Char) : List Char :=
  ((l.dropWhile Char.isWhitespace).reverse.dropWhile Char.isWhitespace).reverse

/-- `strings.Cut(line, "=")`: split at the first `'='`, `none` when absent. -/
def cutEq : List Char → Option (List Char × List Char)
  | [] => none
  | c :: t =>
    if c = '=' then some ([], t)
    else
      match cutEq t with
      | none => none
      | some (a, b) => some (c :: a, b)

/-- One iteration of the `loadDotEnv` line loop: skip blanks and `#`
comments, cut at `=`, trim both sides, and set the variable only when it is
currently unset (`os.Getenv(k) == ""`).  No quote handling is performed. -/
def processLine (e : EnvMap) (line : List Char) : EnvMap :=
  let line := trimSpace line
  if line = [] || line.head? = some '#' then e
  else
    match cutEq line with
    | none => e
    | some (k, v) =>
      let k := String.mk (trimSpace k)
      let v := String.mk (trimSpace v)
      if e k = "" then (fun x => if x = k then v else e x) else e

/-- `func loadDotEnv()`: read `.env` (`none` = missing file, a no-op) and
fold the line processor over `strings.Split(data, "\n")`. -/
def loadDotEnv (data : Option String) (e : EnvMap) : EnvMap :=
  match data with
  | none => e
  | some d => (splitNL d.data).foldl processLine e

/-! ### Proof helpers and concrete fixtures

`noDD` is proof infrastructure (not a translation of source code): it states
that a character list has no two adjacent dashes, the key invariant of
`collapseAux`'s output used in the `slugify` analysis. -/

/-- No two adjacent dashes. -/
def noDD : List Char → Bool
  | a :: b :: t => if a = '-' ∧ b = '-' then false else noDD (b :: t)
  | _ => true

/-- A happy-path issue (the seed-test issue of the spec). -/
def issueHappy : Issue where
  number := 42
  title := "Fix URI parsing"
  body := "URI parsing breaks on ports"
  repo := "acme/svc"
  labels := [⟨"todo"⟩]
  url := "https://github.com/acme/svc/issues/42"
  comments := []
  author := "alice"

/-- An environment in which every external call succeeds and the agent
produces changes. -/
def envAllOk : Env where
  addWIPErr := none
  cloneErr := none
  fetchErr := none
  worktreeErr := none
  changes1 := .ok false
  claudeErr := none
  changes2 := .ok true
  commitErr := none
  pushErr := none
  prResult := .ok "https://github.com/acme/svc/pull/7"
  prCommentAlready := false
  viewComments := some []

/-- Environment in which the very first label edit (step 1) fails. -/
def envStep1Fail : Env := { envAllOk with addWIPErr := some "boom" }

/-- Environment in which the agent runs but leaves the worktree clean. -/
def envNoChange : Env := { envAllOk with changes2 := .ok false }

/-- Environment in which the clone step fails and the most recent comment
on the issue already carries the identical error text. -/
def envCloneFailDup : Env :=
  { envAllOk with
    cloneErr := some "exit status 128"
    viewComments := some [⟨"alice", errBody "cloning repo: exit status 128", "2025-01-02"⟩] }

/-- Environment in which the clone step fails and no comment matches. -/
def envCloneFailFresh : Env := { envAllOk with cloneErr := some "exit status 128" }

/-- An issue that carries only a user comment mentioning the bot by name. -/
def issueUserMention : Issue :=
  { issueHappy with comments := [⟨"alice", "I love claude-bot!", "2025-01-01"⟩] }

/-- An issue whose only comment is the bot's own PR-link comment. -/
def issuePRLinkOnly : Issue :=
  { issueHappy with
    comments := [⟨"joeblew999", prLinkBody "https://github.com/acme/svc/pull/7", "2025-01-01"⟩] }

/-- An issue with one bot-authored and one user-authored error-sentinel
comment plus ordinary chatter. -/
def issueRetries : Issue :=
  { issueHappy with
    number := 7
    comments := [⟨"bob", "please fix this", "2025-01-01"⟩,
                 ⟨"joeblew999", errBody "exit status 1", "2025-01-02"⟩,
                 ⟨"joeblew999", errBody "claude timed out after 10 minutes", "2025-01-03"⟩,
                 ⟨"carol", "claude-bot encountered an error: typed by hand", "2025-01-04"⟩] }

/-- The `.env` fixture of `TestLoadDotEnvQuotes` in `main_test.go`. -/
def dotEnvFixture : String :=
  "TEST_DQ=\"double quoted\"\nTEST_SQ='single quoted'\nTEST_NQ=no quotes\n"

/-- A stale in-progress issue with an open review request on its branch. -/
def issueStaleWithPR : Issue :=
  { issueHappy with number := 6, title := "Crash on empty body", labels := [⟨"in-progress"⟩] }

/-- A stale in-progress issue without a review request. -/
def issueStaleNoPR : Issue :=
  { issueHappy with number := 5, title := "Typo in README", labels := [⟨"in-progress"⟩] }

/-- Reconciler environment for the two stale issues above. -/
def recEnvFixture : RecEnv where
  issuesFor := fun repo =>
    if repo = "acme/svc" then some [issueStaleWithPR, issueStaleNoPR] else none
  prListFor := fun branch =>
    if branch = branchName issueStaleWithPR
    then some ["https://github.com/acme/svc/pull/6"] else some []

/-! ## Theorems -/

/-! ### Tracker lemmas -/

theorem tryAcquire_snd_self (k : String) (t : Tracker) (h : t k = false) :
    ((tryAcquire k t).2) k = true := by
  simp [tryAcquire, h]

theorem tryAcquire_fst_false (k : String) (t : Tracker) (h : t k = true) :
    (tryAcquire k t).1 = false := by
  simp [tryAcquire, h]

theorem tryAcquire_fst_true (k : String) (t : Tracker) (h : t k = false) :
    (tryAcquire k t).1 = true := by
  simp [tryAcquire, h]

theorem held_preserved (k : String) :
    ∀ (ops : List TrackerOp) (t : Tracker), t k = true → TrackerOp.rel k ∉ ops →
      applyOps ops t k = true := by
  intro ops
  induction ops with
  | nil => intro t h _; exact h
  | cons op ops ih =>
    intro t h hmem
    have hop : op ≠ TrackerOp.rel k := by
      intro e; exact hmem (e ▸ List.mem_cons_self _ _)
    have hmem' : TrackerOp.rel k ∉ ops := fun m => hmem (List.mem_cons_of_mem _ m)
    cases op with
    | acq k' =>
      apply ih _ _ hmem'
      by_cases hk : t k' = true
      · simpa [tryAcquire, hk] using h
      · simp only [Bool.not_eq_true] at hk
        simp only [tryAcquire, hk]
        by_cases e : k = k' <;> simp [e, h]
    | rel k' =>
      apply ih _ _ hmem'
      have hne : k ≠ k' := fun e => hop (by rw [e])
      simpa [release, hne] using h

/-- C9: once `tryAcquire k` succeeds, every later `tryAcquire k` fails for
as long as no `release k` intervenes; after a `release k` the next
`tryAcquire k` succeeds again; and `release` of a key that is not held is a
no-op on the tracker state. -/
theorem tracker_acquire_release (t : Tracker) (k : String)
    (h : (tryAcquire k t).1 = true) :
    (∀ ops : List TrackerOp, TrackerOp.rel k ∉ ops →
        (tryAcquire k (applyOps ops (tryAcquire k t).2)).1 = false)
    ∧ (∀ t' : Tracker, (tryAcquire k (release k t')).1 = true)
    ∧ (∀ t' : Tracker, t' k = false → release k t' = t') := by
  have hk : t k = false := by
    by_cases hh : t k = true
    · simp [tryAcquire, hh] at h
    · simpa using hh
  refine ⟨?_, ?_, ?_⟩
  · intro ops hops
    have h2 : ((tryAcquire k t).2) k = true := tryAcquire_snd_self k t hk
    exact tryAcquire_fst_false k _ (held_preserved k ops _ h2 hops)
  · intro t'
    have hrel : (release k t') k = false := by simp [release]
    exact tryAcquire_fst_true k _ hrel
  · intro t' ht'
    funext x
    by_cases e : x = k
    · subst e; simp [release, ht']
    · simp [release, e]

/-- Witness for C9 at a concrete tracker history. -/
theorem tracker_acquire_release_witness :
    (tryAcquire "acme/svc#42" emptyTracker).1 = true
    ∧ (tryAcquire "acme/svc#42"
        (applyOps [TrackerOp.acq "acme/svc#41", TrackerOp.rel "acme/svc#41"]
          (tryAcquire "acme/svc#42" emptyTracker).2)).1 = false
    ∧ (tryAcquire "acme/svc#42" (release "acme/svc#42" emptyTracker)).1 = true := by
  have h : (tryAcquire "acme/svc#42" emptyTracker).1 = true := by decide
  exact ⟨h,
    (tracker_acquire_release emptyTracker _ h).1 _ (by decide),
    (tracker_acquire_release emptyTracker _ h).2.1 emptyTracker⟩

/-! ### Poller and retry ceiling -/

/-- C3: an issue that passes the label skip check and whose bot-error count
has reached the retry ceiling is marked failed (add the failed label, remove
the ready label); the tracker is untouched and nothing is enqueued. -/
theorem poll_retry_ceiling (cfg : Config) (tr : Tracker) (issue : Issue)
    (h1 : issue.hasLabel cfg.WIPLabel = false)
    (h2 : issue.hasLabel cfg.DoneLabel = false)
    (h3 : issue.hasLabel cfg.FailedLabel = false)
    (h4 : cfg.MaxRetries ≤ countBotErrors issue) :
    pollStep cfg tr issue
        = ([PollAct.addLabel cfg.FailedLabel, PollAct.removeLabel cfg.IssueLabel], tr)
    ∧ PollAct.enqueued ∉ (pollStep cfg tr issue).1 := by
  constructor
  · simp [pollStep, h1, h2, h3, h4]
  · simp [pollStep, h1, h2, h3, h4]

/-- Witness for C3: issue #7 with three error-sentinel comments under the
default retry ceiling of 3. -/
theorem poll_retry_ceiling_witness :
    pollStep defaultConfig emptyTracker issueRetries
      = ([PollAct.addLabel "failed", PollAct.removeLabel "todo"], emptyTracker) :=
  (poll_retry_ceiling defaultConfig emptyTracker issueRetries
    (by decide) (by decide) (by decide) (by decide)).1

/-! ### Retry counter (C10) -/

/-- C10: `countBotErrors` is exactly the number of comments whose body
contains the error sentinel — it factors through the bodies alone, so the
author is irrelevant, and on `issueRetries` the hand-typed user comment
containing the sentinel is counted along with the two bot comments. -/
theorem countBotErrors_ignores_author :
    (∀ issue : Issue,
      countBotErrors issue
        = List.countP (fun b => containsStr b errSentinel) (issue.comments.map Comment.body))
    ∧ countBotErrors issueRetries = 3 := by
  constructor
  · intro issue
    rw [List.countP_map]
    rfl
  · decide

/-! ### Bot-comment marker (C2) -/

/-- C2 (code bug): `hasBotComment` greps for the bare substring
`"claude-bot"` instead of a stable marker.  A user comment merely mentioning
the bot is detected (its own test `TestHasBotComment` demands `false` here),
while the bot's own PR-link comment — and the triage fallback reply — do not
contain the substring at all, so neither carries any marker the predicate
could recognise. -/
theorem hasBotComment_marker_code_bug :
    hasBotComment issueUserMention = true
    ∧ hasBotComment issuePRLinkOnly = false
    ∧ containsStr (prLinkBody "https://github.com/acme/svc/pull/7") "claude-bot" = false
    ∧ containsStr (triageFallback "alice") "claude-bot" = false := by
  decide

/-! ### `.env` loader (C8) -/

/-- C8 (code bug): `loadDotEnv` stores quoted values verbatim — the
surrounding quotes are NOT removed, contradicting `TestLoadDotEnvQuotes`,
which expects `TEST_DQ` to read back as `double quoted`. -/
theorem loadDotEnv_keeps_quotes_code_bug :
    loadDotEnv (some dotEnvFixture) emptyEnvMap "TEST_DQ" = "\"double quoted\""
    ∧ loadDotEnv (some dotEnvFixture) emptyEnvMap "TEST_SQ" = "'single quoted'"
    ∧ loadDotEnv (some dotEnvFixture) emptyEnvMap "TEST_NQ" = "no quotes" := by
  decide

/-! ### Startup reconciler (C5) -/

/-- C5: for every configured repository and every issue fetched with the
in-progress label, the reconciler emits exactly one of the two label
combinations — add done / remove in-progress when a review request exists on
the issue's branch, remove in-progress / add ready otherwise — and no entry
of the whole reconciliation trace carries any other combination. -/
theorem recoverStaleIssues_dichotomy (cfg : Config) (env : RecEnv)
    (repo : String) (issues : List Issue) (issue : Issue)
    (h1 : repo ∈ cfg.Repos) (h2 : env.issuesFor repo = some issues) (h3 : issue ∈ issues) :
    ((repo, issue.number,
        if prExists env (branchName issue)
        then [LabelAct.add cfg.DoneLabel, LabelAct.remove cfg.WIPLabel]
        else [LabelAct.remove cfg.WIPLabel, LabelAct.add cfg.IssueLabel])
      ∈ recoverStaleIssues cfg env)
    ∧ ∀ e ∈ recoverStaleIssues cfg env,
        e.2.2 = [LabelAct.add cfg.DoneLabel, LabelAct.remove cfg.WIPLabel]
        ∨ e.2.2 = [LabelAct.remove cfg.WIPLabel, LabelAct.add cfg.IssueLabel] := by
  constructor
  · rw [recoverStaleIssues]
    apply List.mem_flatten.mpr
    refine ⟨issues.map (fun i => (repo, i.number, recoverIssue cfg env i)), ?_, ?_⟩
    · exact List.mem_map.mpr ⟨repo, h1, by simp [recoverRepo, h2]⟩
    · exact List.mem_map.mpr ⟨issue, h3, by rw [recoverIssue]⟩
  · intro e he
    rw [recoverStaleIssues] at he
    obtain ⟨l, hl, hel⟩ := List.mem_flatten.mp he
    obtain ⟨r, _, rfl⟩ := List.mem_map.mp hl
    rw [recoverRepo] at hel
    cases hir : env.issuesFor r with
    | none => rw [hir] at hel; simp at hel
    | some iss =>
      rw [hir] at hel
      obtain ⟨i, _, rfl⟩ := List.mem_map.mp hel
      by_cases hp : prExists env (branchName i) = true
      · left; simp [recoverIssue, hp]
      · right
        simp only [Bool.not_eq_true] at hp
        simp [recoverIssue, hp]

/-- Witness for C5: issue #6 (review request exists) resolves to
add-done / remove-in-progress in the concrete reconciliation trace. -/
theorem recoverStaleIssues_dichotomy_witness :
    ("acme/svc", 6, [LabelAct.add "done", LabelAct.remove "in-progress"])
      ∈ recoverStaleIssues defaultConfig recEnvFixture := by
  have h := (recoverStaleIssues_dichotomy defaultConfig recEnvFixture "acme/svc"
    [issueStaleWithPR, issueStaleNoPR] issueStaleWithPR
    (by decide) rfl (by simp)).1
  simpa using h

/-! ### Pipeline compensation (C1, C4, C6) -/

theorem claimStep_no_comment (cfg : Config) (issue : Issue) (env : Env) (b : String) :
    Act.comment b ∉ (claimStep cfg issue env).1 := by
  unfold claimStep
  split
  · simp
  · rcases henv : env.addWIPErr with _ | e <;> simp [henv]

theorem synthGate_acts (env : Env) :
    (synthGate env).1 = [] ∨ (synthGate env).1 = [Act.runAgent] := by
  unfold synthGate
  rcases h1 : env.changes1 with e | b
  · left; rfl
  · cases b
    · rcases h5 : env.claudeErr with _ | e
      · rcases h6 : env.changes2 with e | hc
        · right; rfl
        · right; rfl
      · right; rfl
    · left; rfl

theorem finishSteps_fail_no_comment (cfg : Config) (issue : Issue) (env : Env)
    (tf : List Act) (e : String) (h : finishSteps cfg issue env = (tf, some e)) :
    ∀ b, Act.comment b ∉ tf := by
  intro b
  unfold finishSteps at h
  rcases hcm : env.commitErr with _ | e7
  · rcases hp : env.pushErr with _ | e8
    · rcases hpr : env.prResult with e9 | url
      · simp [hcm, hp, hpr, Prod.mk.injEq] at h
        obtain ⟨ht, -⟩ := h
        subst ht
        simp
      · simp [hcm, hp, hpr, Prod.mk.injEq] at h
    · simp [hcm, hp, Prod.mk.injEq] at h
      obtain ⟨ht, -⟩ := h
      subst ht
      simp
  · simp [hcm, Prod.mk.injEq] at h
    obtain ⟨ht, -⟩ := h
    subst ht
    simp

theorem processMain_fail_no_comment (cfg : Config) (issue : Issue) (env : Env)
    (t : List Act) (e : String) (h : processMain cfg issue env = (t, some e)) :
    ∀ b, Act.comment b ∉ t := by
  intro b
  have hc1 := claimStep_no_comment cfg issue env b
  unfold processMain at h
  rcases hcs : claimStep cfg issue env with ⟨t1, r1⟩
  rw [hcs] at h hc1
  simp only at hc1
  cases r1 with
  | some e1 =>
    simp only [Prod.mk.injEq] at h
    obtain ⟨ht, -⟩ := h
    subst ht
    exact hc1
  | none =>
    rcases hcl : env.cloneErr with _ | e2
    swap
    · simp [hcl, Prod.mk.injEq] at h
      obtain ⟨ht, -⟩ := h
      subst ht
      simp [hc1]
    rcases hf : env.fetchErr with _ | e3
    swap
    · simp [hcl, hf, Prod.mk.injEq] at h
      obtain ⟨ht, -⟩ := h
      subst ht
      simp [hc1]
    rcases hw : env.worktreeErr with _ | e4
    swap
    · simp [hcl, hf, hw, Prod.mk.injEq] at h
      obtain ⟨ht, -⟩ := h
      subst ht
      simp [hc1]
    rcases hsg : synthGate env with ⟨ts, rs⟩
    have hts : Act.comment b ∉ ts := by
      rcases synthGate_acts env with ha | ha <;> rw [hsg] at ha <;> simp at ha <;> simp [ha]
    simp only [hcl, hf, hw, hsg] at h
    cases rs with
    | error e5 =>
      simp only [Prod.mk.injEq] at h
      obtain ⟨ht, -⟩ := h
      subst ht
      simp [hc1, hts]
    | ok hc =>
      cases hc
      · simp at h
      · rcases hfs : finishSteps cfg issue env with ⟨tf, rf⟩
        rw [hfs] at h
        simp only [Prod.mk.injEq] at h
        obtain ⟨ht, hr⟩ := h
        subst ht
        cases rf with
        | none => simp at hr
        | some e6 =>
          have htf := finishSteps_fail_no_comment cfg issue env tf e6 hfs b
          simp [hc1, hts, htf]

/-- C6: whenever the pipeline returns an error, the trace ends with the
compensation suffix — the error comment appears exactly when the most recent
comment fetched by `lastCommentContains` does not already contain the error
text — and the compensation always removes in-progress, adds the ready
label, and runs cleanup; no comment was posted before the compensation. -/
theorem compensation_dedup (cfg : Config) (issue : Issue) (env : Env) (msg : String)
    (h : (processIssue cfg issue env).2 = some msg) :
    (∃ pre, (processIssue cfg issue env).1
        = pre ++ ((if lastCommentContains env.viewComments msg then []
                   else [Act.comment (errBody msg)])
                  ++ [Act.removeLabel cfg.WIPLabel, Act.addLabel cfg.IssueLabel, Act.cleanupStep])
        ∧ ∀ b, Act.comment b ∉ pre)
    ∧ (Act.comment (errBody msg) ∈ (processIssue cfg issue env).1
        ↔ lastCommentContains env.viewComments msg = false)
    ∧ Act.removeLabel cfg.WIPLabel ∈ (processIssue cfg issue env).1
    ∧ Act.addLabel cfg.IssueLabel ∈ (processIssue cfg issue env).1
    ∧ Act.cleanupStep ∈ (processIssue cfg issue env).1 := by
  rcases hm : processMain cfg issue env with ⟨t, r⟩
  cases r with
  | none =>
    rw [processIssue, hm] at h
    simp at h
  | some e =>
    have hpe : processIssue cfg issue env = (t ++ compensate cfg env e, some e) := by
      rw [processIssue, hm]
    rw [hpe] at h
    simp only at h
    have hme : e = msg := by simpa using h
    subst hme
    have hnc := processMain_fail_no_comment cfg issue env t e hm
    rw [hpe]
    refine ⟨⟨t, by simp [compensate], hnc⟩, ?_, ?_, ?_, ?_⟩
    · cases hlc : lastCommentContains env.viewComments e
      · simp [compensate, hlc]
      · simp [compensate, hlc, hnc]
    · simp [compensate]
    · simp [compensate]
    · simp [compensate]

/-- Witness for C6 at a concrete clone failure with no matching comment. -/
theorem compensation_dedup_witness :
    Act.comment (errBody "cloning repo: exit status 128")
        ∈ (processIssue defaultConfig issueHappy envCloneFailFresh).1
    ∧ Act.cleanupStep ∈ (processIssue defaultConfig issueHappy envCloneFailFresh).1 := by
  have h := compensation_dedup defaultConfig issueHappy envCloneFailFresh
    "cloning repo: exit status 128" (by decide)
  exact ⟨h.2.1.mpr (by decide), h.2.2.2.2⟩

/-- C1 (amended): when step 1 (adding the in-progress label) fails, the
deferred handler runs the very same compensation as for any later step:
the deduplicated error comment, remove in-progress, add ready, cleanup. -/
theorem processIssue_step1_compensation (cfg : Config) (issue : Issue) (env : Env) (e : String)
    (hL : issue.hasLabel cfg.WIPLabel = false) (hE : env.addWIPErr = some e) :
    processIssue cfg issue env
      = ([Act.addLabel cfg.WIPLabel]
          ++ (if lastCommentContains env.viewComments ("marking in-progress: " ++ e) then []
              else [Act.comment (errBody ("marking in-progress: " ++ e))])
          ++ [Act.removeLabel cfg.WIPLabel, Act.addLabel cfg.IssueLabel, Act.cleanupStep],
         some ("marking in-progress: " ++ e)) := by
  have hcs : claimStep cfg issue env
      = ([Act.addLabel cfg.WIPLabel], some ("marking in-progress: " ++ e)) := by
    simp [claimStep, hL, hE]
  simp [processIssue, processMain, hcs, compensate]

/-- C1 counterexample: with the step-1 `addLabel` call failing, the claim
"no compensation: no error comment, no label changes, no cleanup" is false —
all three compensation effects are attempted. -/
theorem processIssue_step1_compensation_counterexample :
    (processIssue defaultConfig issueHappy envStep1Fail).2 = some "marking in-progress: boom"
    ∧ Act.comment (errBody "marking in-progress: boom")
        ∈ (processIssue defaultConfig issueHappy envStep1Fail).1
    ∧ Act.removeLabel "in-progress" ∈ (processIssue defaultConfig issueHappy envStep1Fail).1
    ∧ Act.addLabel "todo" ∈ (processIssue defaultConfig issueHappy envStep1Fail).1
    ∧ Act.cleanupStep ∈ (processIssue defaultConfig issueHappy envStep1Fail).1 := by
  decide

/-- Witness for the amended C1 at the concrete step-1 failure. -/
theorem processIssue_step1_compensation_witness :
    processIssue defaultConfig issueHappy envStep1Fail
      = ([Act.addLabel "in-progress", Act.comment (errBody "marking in-progress: boom"),
          Act.removeLabel "in-progress", Act.addLabel "todo", Act.cleanupStep],
         some "marking in-progress: boom") := by
  have h := processIssue_step1_compensation defaultConfig issueHappy envStep1Fail "boom"
    (by decide) rfl
  exact h

/-- C4: when the worktree is still clean after the agent ran, the pipeline
posts the no-change comment, removes in-progress, adds needs-info, runs
cleanup, and returns success; no commit, push, or review-request creation is
attempted. -/
theorem processIssue_no_change_branch (cfg : Config) (issue : Issue) (env : Env)
    (h0 : issue.hasLabel cfg.WIPLabel = true ∨ env.addWIPErr = none)
    (h1 : env.cloneErr = none) (h2 : env.fetchErr = none) (h3 : env.worktreeErr = none)
    (h4 : env.changes1 = .ok false) (h5 : env.claudeErr = none) (h6 : env.changes2 = .ok false) :
    (processIssue cfg issue env).2 = none
    ∧ (∃ pre, (processIssue cfg issue env).1
        = pre ++ [Act.comment (noChangeBody cfg), Act.removeLabel cfg.WIPLabel,
                  Act.addLabel cfg.NeedsInfoLabel, Act.cleanupStep])
    ∧ Act.commitStep ∉ (processIssue cfg issue env).1
    ∧ Act.pushStep ∉ (processIssue cfg issue env).1
    ∧ Act.createPR ∉ (processIssue cfg issue env).1 := by
  have hsg : synthGate env = ([Act.runAgent], .ok false) := by
    simp [synthGate, h4, h5, h6]
  obtain ⟨t1, hcs, hm1, hm2, hm3⟩ :
      ∃ t1, claimStep cfg issue env = (t1, none)
        ∧ Act.commitStep ∉ t1 ∧ Act.pushStep ∉ t1 ∧ Act.createPR ∉ t1 := by
    rcases h0 with hW | hA
    · exact ⟨[], by simp [claimStep, hW], by simp, by simp, by simp⟩
    · by_cases hW : issue.hasLabel cfg.WIPLabel
      · exact ⟨[], by simp [claimStep, hW], by simp, by simp, by simp⟩
      · exact ⟨[Act.addLabel cfg.WIPLabel, Act.removeLabel cfg.IssueLabel],
          by simp [claimStep, hW, hA], by simp, by simp, by simp⟩
  have hpm : processMain cfg issue env
      = (t1 ++ [Act.cloneRepo, Act.fetchOrigin, Act.addWorktree]
          ++ [Act.runAgent]
          ++ [Act.comment (noChangeBody cfg), Act.removeLabel cfg.WIPLabel,
              Act.addLabel cfg.NeedsInfoLabel, Act.cleanupStep], none) := by
    rw [processMain, hcs]
    simp [h1, h2, h3, hsg]
  have hpi : processIssue cfg issue env
      = (t1 ++ [Act.cloneRepo, Act.fetchOrigin, Act.addWorktree]
          ++ [Act.runAgent]
          ++ [Act.comment (noChangeBody cfg), Act.removeLabel cfg.WIPLabel,
              Act.addLabel cfg.NeedsInfoLabel, Act.cleanupStep], none) := by
    rw [processIssue, hpm]
  rw [hpi]
  refine ⟨rfl, ⟨t1 ++ [Act.cloneRepo, Act.fetchOrigin, Act.addWorktree, Act.runAgent], by simp⟩,
    ?_, ?_, ?_⟩ <;> simp [hm1, hm2, hm3]

/-- Witness for C4 at the concrete no-change environment. -/
theorem processIssue_no_change_branch_witness :
    (processIssue defaultConfig issueHappy envNoChange).2 = none
    ∧ Act.pushStep ∉ (processIssue defaultConfig issueHappy envNoChange).1
    ∧ Act.createPR ∉ (processIssue defaultConfig issueHappy envNoChange).1 := by
  have h := processIssue_no_change_branch defaultConfig issueHappy envNoChange
    (Or.inr rfl) rfl rfl rfl rfl rfl rfl
  exact ⟨h.1, h.2.2.2.1, h.2.2.2.2⟩

/-! ### `slugify` analysis (C7) -/

theorem isAlnum_ne_dash (c : Char) (h : isAlnum c = true) : c ≠ '-' := by
  intro e
  subst e
  simp [isAlnum] at h

theorem noDD_tail (c : Char) (t : List Char) (h : noDD (c :: t) = true) : noDD t = true := by
  cases t with
  | nil => rfl
  | cons d t' =>
    rw [noDD] at h
    split at h
    · exact absurd h (by simp)
    · exact h

theorem noDD_head (c d : Char) (t : List Char) (h : noDD (c :: d :: t) = true) :
    ¬(c = '-' ∧ d = '-') := by
  rw [noDD] at h
  split at h
  · exact absurd h (by simp)
  · assumption

theorem noDD_cons (c : Char) (t : List Char) (h1 : noDD t = true)
    (h2 : c ≠ '-' ∨ t.head? ≠ some '-') : noDD (c :: t) = true := by
  cases t with
  | nil => rfl
  | cons d t' =>
    have hcd : ¬(c = '-' ∧ d = '-') := by
      rcases h2 with h | h
      · exact fun hp => h hp.1
      · exact fun hp => h (by simp [hp.2])
    simp only [noDD, hcd, if_false]
    exact h1

theorem mem_collapseAux (b : Bool) (l : List Char) :
    ∀ c ∈ collapseAux b l, isAlnum c = true ∨ c = '-' := by
  induction l generalizing b with
  | nil => intro c hc; simp [collapseAux] at hc
  | cons a t ih =>
    intro c hc
    rw [collapseAux] at hc
    by_cases ha : isAlnum a = true
    · rw [if_pos ha] at hc
      rcases List.mem_cons.mp hc with rfl | hc'
      · exact Or.inl ha
      · exact ih false c hc'
    · rw [if_neg ha] at hc
      cases b with
      | true => simpa using ih true c (by simpa using hc)
      | false =>
        simp only [Bool.false_eq_true, if_false] at hc
        rcases List.mem_cons.mp hc with rfl | hc'
        · exact Or.inr rfl
        · exact ih true c hc'

theorem collapseAux_true_head (l : List Char) :
    (collapseAux true l).head? ≠ some '-' := by
  induction l with
  | nil => simp [collapseAux]
  | cons a t ih =>
    rw [collapseAux]
    by_cases ha : isAlnum a = true
    · rw [if_pos ha]
      intro h
      simp at h
      exact isAlnum_ne_dash a ha h
    · rw [if_neg ha]
      simpa using ih

theorem noDD_collapseAux (b : Bool) (l : List Char) : noDD (collapseAux b l) = true := by
  induction l generalizing b with
  | nil => rfl
  | cons a t ih =>
    rw [collapseAux]
    by_cases ha : isAlnum a = true
    · rw [if_pos ha]
      exact noDD_cons _ _ (ih false) (Or.inl (isAlnum_ne_dash a ha))
    · rw [if_neg ha]
      cases b with
      | true => simpa using ih true
      | false =>
        simp only [Bool.false_eq_true, if_false]
        exact noDD_cons _ _ (ih true) (Or.inr (collapseAux_true_head t))

theorem isAlnum_dash_false : isAlnum '-' = false := by decide

theorem collapseAux_false_id (l : List Char)
    (hmem : ∀ c ∈ l, isAlnum c = true ∨ c = '-') (hndd : noDD l = true) :
    collapseAux false l = l := by
  induction l with
  | nil => rfl
  | cons a t ih =>
    by_cases ha : isAlnum a = true
    · rw [collapseAux, if_pos ha]
      rw [ih (fun c hc => hmem c (List.mem_cons_of_mem _ hc)) (noDD_tail _ _ hndd)]
    · have ha' : a = '-' := by
        rcases hmem a (List.mem_cons_self _ _) with h | h
        · exact absurd h ha
        · exact h
      subst ha'
      cases t with
      | nil => decide
      | cons d t' =>
        have hd : isAlnum d = true := by
          have hnd := noDD_head _ _ _ hndd
          have hd' : d ≠ '-' := fun e => hnd ⟨rfl, e⟩
          rcases hmem d (by simp) with h | h
          · exact h
          · exact absurd h hd'
        have h2 := ih (fun c hc => hmem c (List.mem_cons_of_mem _ hc)) (noDD_tail _ _ hndd)
        rw [collapseAux, if_neg (by simp [isAlnum_dash_false])]
        simp only [Bool.false_eq_true, if_false]
        rw [collapseAux, if_pos hd]
        rw [collapseAux, if_pos hd] at h2
        obtain h3 : collapseAux false t' = t' := by simpa using h2
        rw [h3]

theorem goToLower_fix (c : Char) (h : isAlnum c = true ∨ c = '-') : goToLower c = c := by
  rcases h with h | rfl
  · rw [goToLower, if_neg]
    simp only [isAlnum, Bool.or_eq_true, Bool.and_eq_true, decide_eq_true_eq] at h
    omega
  · decide

theorem map_goToLower_id (l : List Char) (h : ∀ c ∈ l, isAlnum c = true ∨ c = '-') :
    l.map goToLower = l :=
  (List.map_congr_left (fun c hc => goToLower_fix c (h c hc))).trans (List.map_id l)

theorem dropWhile_dash_of_head (l : List Char) (h : l.head? ≠ some '-') :
    l.dropWhile (· == '-') = l := by
  cases l with
  | nil => rfl
  | cons c t =>
    have hc : ¬((c == '-') = true) := by
      simp only [List.head?_cons, ne_eq, Option.some.injEq] at h
      simpa using h
    exact List.dropWhile_cons_of_neg hc

theorem trimDashes_eq_self (l : List Char) (h1 : l.head? ≠ some '-')
    (h2 : l.getLast? ≠ some '-') : trimDashes l = l := by
  unfold trimDashes
  rw [dropWhile_dash_of_head l h1]
  rw [dropWhile_dash_of_head l.reverse (by rw [List.head?_reverse]; exact h2)]
  exact List.reverse_reverse l

theorem mem_trimDashes (c : Char) (l : List Char) (hc : c ∈ trimDashes l) : c ∈ l := by
  unfold trimDashes at hc
  rw [List.mem_reverse] at hc
  have h1 := (List.dropWhile_sublist _).subset hc
  rw [List.mem_reverse] at h1
  exact (List.dropWhile_sublist _).subset h1

theorem noDD_dropWhile (p : Char → Bool) (l : List Char) (h : noDD l = true) :
    noDD (l.dropWhile p) = true := by
  induction l with
  | nil => rfl
  | cons c t ih =>
    rw [List.dropWhile_cons]
    split
    · exact ih (noDD_tail _ _ h)
    · exact h

theorem noDD_append_singleton (l : List Char) (a : Char) (h : noDD l = true)
    (h2 : ∀ c, l.getLast? = some c → ¬(c = '-' ∧ a = '-')) : noDD (l ++ [a]) = true := by
  induction l with
  | nil => rfl
  | cons x t ih =>
    cases t with
    | nil =>
      have hx := h2 x (by simp)
      simp only [List.cons_append, List.nil_append]
      rw [noDD, if_neg hx]
      rfl
    | cons y t' =>
      have hxy := noDD_head x y t' h
      have ht := ih (noDD_tail _ _ h) (fun c hc => h2 c (by rw [List.getLast?_cons_cons]; exact hc))
      simp only [List.cons_append] at ht ⊢
      rw [noDD, if_neg hxy]
      exact ht

theorem noDD_reverse (l : List Char) (h : noDD l = true) : noDD l.reverse = true := by
  induction l with
  | nil => rfl
  | cons c t ih =>
    rw [List.reverse_cons]
    apply noDD_append_singleton _ _ (ih (noDD_tail _ _ h))
    intro d hd
    rw [List.getLast?_reverse] at hd
    cases t with
    | nil => simp at hd
    | cons e t' =>
      simp only [List.head?_cons, Option.some.injEq] at hd
      subst hd
      have hce := noDD_head _ _ _ h
      exact fun hp => hce ⟨hp.2, hp.1⟩

theorem noDD_take (n : Nat) (l : List Char) (h : noDD l = true) :
    noDD (l.take n) = true := by
  induction l generalizing n with
  | nil => simp [List.take_nil]; rfl
  | cons c t ih =>
    cases n with
    | zero => rfl
    | succ n' =>
      rw [List.take_succ_cons]
      cases t with
      | nil => rw [List.take_nil]; rfl
      | cons d t' =>
        cases n' with
        | zero => rw [List.take_zero]; rfl
        | succ n'' =>
          have hcd := noDD_head _ _ _ h
          have ht : noDD (d :: List.take n'' t') = true := by
            have h2 := ih (n'' + 1) (noDD_tail _ _ h)
            simpa [List.take_succ_cons] using h2
          rw [List.take_succ_cons, noDD, if_neg hcd]
          exact ht

theorem head?_take_pos (l : List Char) (n : Nat) (hn : n ≠ 0) :
    (l.take n).head? = l.head? := by
  cases l with
  | nil => rw [List.take_nil]
  | cons c t =>
    cases n with
    | zero => exact absurd rfl hn
    | succ n' => rw [List.take_succ_cons, List.head?_cons, List.head?_cons]

theorem getLast?_dropWhile_or (p : Char → Bool) (l : List Char) :
    (l.dropWhile p).getLast? = l.getLast? ∨ l.dropWhile p = [] := by
  induction l with
  | nil => right; rfl
  | cons c t ih =>
    rw [List.dropWhile_cons]
    split
    · rcases ih with h | h
      · cases t with
        | nil => right; rfl
        | cons d t' =>
          left
          rw [h, List.getLast?_cons_cons]
      · right; exact h
    · left; rfl

theorem head?_trimDashes (l : List Char) (c : Char)
    (hc : (trimDashes l).head? = some c) : c ≠ '-' := by
  unfold trimDashes at hc
  rw [List.head?_reverse] at hc
  rcases getLast?_dropWhile_or (· == '-') ((l.dropWhile (· == '-')).reverse) with h | h
  · rw [h, List.getLast?_reverse] at hc
    have hnot := List.head?_dropWhile_not (· == '-') l
    rw [hc] at hnot
    simpa using hnot
  · rw [h] at hc
    simp at hc

theorem noDD_trimDashes (l : List Char) (h : noDD l = true) :
    noDD (trimDashes l) = true := by
  unfold trimDashes
  exact noDD_reverse _ (noDD_dropWhile _ _ (noDD_reverse _ (noDD_dropWhile _ _ h)))

theorem slugifyL_invariants (l : List Char) :
    (∀ c ∈ slugifyL l, isAlnum c = true ∨ c = '-')
    ∧ noDD (slugifyL l) = true
    ∧ (slugifyL l).head? ≠ some '-'
    ∧ (slugifyL l).length ≤ 50 := by
  have hmemT : ∀ c ∈ trimDashes (collapseAux false (l.map goToLower)),
      isAlnum c = true ∨ c = '-' :=
    fun c hc => mem_collapseAux false _ c (mem_trimDashes c _ hc)
  have hnddT : noDD (trimDashes (collapseAux false (l.map goToLower))) = true :=
    noDD_trimDashes _ (noDD_collapseAux false _)
  have hheadT : (trimDashes (collapseAux false (l.map goToLower))).head? ≠ some '-' := by
    intro h
    exact head?_trimDashes _ _ h rfl
  simp only [slugifyL]
  split
  · refine ⟨?_, ?_, ?_, ?_⟩
    · exact fun c hc => hmemT c ((List.take_sublist _ _).subset hc)
    · exact noDD_take _ _ hnddT
    · rw [head?_take_pos _ 50 (by omega)]
      exact hheadT
    · rw [List.length_take]
      omega
  · next hlen =>
    refine ⟨hmemT, hnddT, hheadT, by omega⟩

theorem slugifyL_id (l : List Char)
    (hmem : ∀ c ∈ l, isAlnum c = true ∨ c = '-')
    (hndd : noDD l = true)
    (hhead : l.head? ≠ some '-')
    (hlast : l.getLast? ≠ some '-')
    (hlen : l.length ≤ 50) :
    slugifyL l = l := by
  simp only [slugifyL]
  rw [map_goToLower_id l hmem, collapseAux_false_id l hmem hndd,
    trimDashes_eq_self l hhead hlast, if_neg (by omega)]

/-- C7 counterexample: a 51-character title whose slug is truncated right
after a dash.  The first `slugify` yields 49 `a`s followed by a dash; the
second strips that trailing dash, so `slugify ∘ slugify ≠ slugify` here. -/
theorem slugify_not_idempotent_counterexample :
    slugify (slugify "aaaaaaaaaaaaaaaaaaaaaaaaaaaaaaaaaaaaaaaaaaaaaaaaa!bb")
      ≠ slugify "aaaaaaaaaaaaaaaaaaaaaaaaaaaaaaaaaaaaaaaaaaaaaaaaa!bb" := by
  decide

/-- C7 (amended): `slugify` is idempotent on every input whose slug does not
end in a dash (the only exception arises when the 50-character truncation
cuts right after a dash; the second application then trims that dash), and
`branchName` is a deterministic function of `(number, title)` of the stated
shape with an empty slug replaced by `"fix"`. -/
theorem slugify_branchName_amended :
    (∀ s : String, (slugify s).data.getLast? ≠ some '-' →
        slugify (slugify s) = slugify s)
    ∧ (∀ i j : Issue, i.number = j.number → i.title = j.title →
        branchName i = branchName j)
    ∧ (∀ i : Issue, branchName i
        = "issue-" ++ toString i.number ++ "-"
          ++ (if slugify i.title = "" then "fix" else slugify i.title)) := by
  refine ⟨?_, ?_, ?_⟩
  · intro s hlast
    show String.mk (slugifyL (slugifyL s.data)) = String.mk (slugifyL s.data)
    obtain ⟨hmem, hndd, hhead, hlen⟩ := slugifyL_invariants s.data
    have hhead' : (slugifyL s.data).head? ≠ some '-' := hhead
    have hlast' : (slugifyL s.data).getLast? ≠ some '-' := hlast
    rw [slugifyL_id _ hmem hndd hhead' hlast' hlen]
  · intro i j hn ht
    rw [branchName, branchName, hn, ht]
  · intro i
    rfl

/-- Witness for the amended C7 at concrete inputs. -/
theorem slugify_branchName_amended_witness :
    slugify (slugify "Fix URI Parsing!!") = slugify "Fix URI Parsing!!"
    ∧ branchName issueHappy = "issue-42-fix-uri-parsing" := by
  refine ⟨slugify_branchName_amended.1 "Fix URI Parsing!!" (by decide), ?_⟩
  rw [slugify_branchName_amended.2.2 issueHappy]
  decide
